import Mathlib

/-!
# Verification of the beach-data generator (`genjson.py`)

Shallow embedding of `generate_realistic_beach_data` over exact rationals.

Randomness model: every call to the Python random source is replaced by an
oracle value supplied as an argument.  A call `random.uniform(a, b)` becomes
`uniformQ a b u` for a unit draw `u ∈ [0, 1]`; `random.random()` becomes a
unit draw used directly (its support `[0, 1)` is contained in `[0, 1]`, and
`0` is a genuine return value of `random.random()`); `random.randint(a, b)`
becomes `randint a b n` for an arbitrary natural oracle `n`, which always
lands in `[a, b]`; `random.shuffle(cells)` becomes an oracle list constrained
to be a permutation of the cell list where that matters.  Draw sites inside
loops receive oracles indexed by the loop counters.  Since every claim
quantifies universally over the draws, this oracle model captures exactly the
set of reachable outcomes.

Float arithmetic is modelled by exact rationals; Python `round(x, k)` is
modelled by `round (x * 10^k) / 10^k` with Mathlib's round-half-up `round`
(the claims proved here never depend on the tie-breaking rule).  Date and
time strings (`strftime` images of `start_date + i` and of the drawn
hour/minute) are abstracted to the day index and the drawn hour/minute,
which determine them injectively.
-/

/-- `random.uniform(a, b)` driven by a unit draw `u ∈ [0, 1]`. -/
def uniformQ (a b u : ℚ) : ℚ := a + (b - a) * u

/-- `random.randint(a, b)` (inclusive bounds) driven by a natural oracle. -/
def randint (a b n : ℕ) : ℕ := a + n % (b + 1 - a)

/-- Python `round(x, 5)` over exact rationals. -/
def round5 (x : ℚ) : ℚ := (round (x * 100000) : ℤ) / 100000

/-- Python `round(x, 7)` over exact rationals. -/
def round7 (x : ℚ) : ℚ := (round (x * 10000000) : ℤ) / 10000000

/-- A unit draw, the abstract range of `random.random()` and of the unit
oracles feeding `random.uniform`. -/
def UnitRange (u : ℚ) : Prop := 0 ≤ u ∧ u ≤ 1

/-- The daily parameter record (`global_tendency` / `daily_params` dicts,
lines 18-23 and 74-77 of `genjson.py`). -/
structure DailyParams where
  mean : ℚ
  dev : ℚ
  add_chance : ℚ
  remove_chance : ℚ
deriving DecidableEq

/-- `global_tendency`, lines 18-23. -/
def global_tendency : DailyParams :=
  { mean := 1, dev := 1/20, add_chance := 1/20, remove_chance := 1/20 }

/-- Lines 74-77: deep-copy the global tendency and perturb `mean`,
`add_chance` and `remove_chance` by fresh uniform draws; `dev` is untouched. -/
def daily_params (g : DailyParams) (um ua ur : ℚ) : DailyParams :=
  { mean := g.mean + uniformQ (-(2/100)) (2/100) um
    dev := g.dev
    add_chance := g.add_chance + uniformQ (-(3/100)) (3/100) ua
    remove_chance := g.remove_chance + uniformQ (-(3/100)) (3/100) ur }

/-- A grain record `{"diameter": ..., "area": ...}`. -/
structure Grain where
  diameter : ℚ
  area : ℚ
deriving DecidableEq

/-- Lines 88-93 and 115-120: a freshly sampled grain,
`diameter = abs(round(uniform(0.5, 1.5), 5))`,
`area = abs(round(uniform(0.2, 2.0), 5))`. -/
def new_grain (du au : ℚ) : Grain :=
  { diameter := |round5 (uniformQ (1/2) (3/2) du)|
    area := |round5 (uniformQ (1/5) 2 au)| }

/-- A `for _ in range(n)` loop appending fresh grains (lines 87-93 for the
first run, lines 114-120 for accretion; both loops are textually identical). -/
def sample_grains (n : ℕ) (du au : ℕ → ℚ) : List Grain :=
  (List.range n).map (fun j => new_grain (du j) (au j))

/-- Lines 103-109: one `change_factor ~ uniform(mean - dev, mean + dev)`
scales both the diameter and the area of a surviving grain, each then
rounded to 5 decimals and passed through `abs`. -/
def resize_grain (p : DailyParams) (g : Grain) (cu : ℚ) : Grain :=
  let cf := uniformQ (p.mean - p.dev) (p.mean + p.dev) cu
  { diameter := |round5 (g.diameter * cf)|
    area := |round5 (g.area * cf)| }

/-- Lines 98-109: the survival/resize loop over the previous grains.  The
grain at loop position `k` survives iff `survU k > max(0, remove_chance)`;
a survivor is resized with the draw `changeU k`. -/
def surviving_grains (p : DailyParams) (survU changeU : ℕ → ℚ) :
    List Grain → ℕ → List Grain
  | [], _ => []
  | g :: rest, k =>
    if max 0 p.remove_chance < survU k then
      resize_grain p g (changeU k) :: surviving_grains p survU changeU rest (k + 1)
    else
      surviving_grains p survU changeU rest (k + 1)

/-- The oracle draws consumed while processing one location on one day. -/
structure LocDraws where
  numGrainsN : ℕ
  initDiamU : ℕ → ℚ
  initAreaU : ℕ → ℚ
  survU : ℕ → ℚ
  changeU : ℕ → ℚ
  addGateU : ℚ
  numNewN : ℕ
  newDiamU : ℕ → ℚ
  newAreaU : ℕ → ℚ

/-- Lines 98-122: evolve one location's grain set for a day `i > 0`:
survival/resize pass over the previous grains, then the accretion gate
`random.random() < max(0, add_chance)` appends `randint(1, 7)` fresh
grains. -/
def evolve_grains (p : DailyParams) (prev : List Grain) (d : LocDraws) : List Grain :=
  let survivors := surviving_grains p d.survU d.changeU prev 0
  if d.addGateU < max 0 p.add_chance then
    survivors ++ sample_grains (randint 1 7 d.numNewN) d.newDiamU d.newAreaU
  else
    survivors

/-- A master-list location `{"lat": ..., "lon": ...}`. -/
structure Location where
  lat : ℚ
  lon : ℚ
deriving DecidableEq

/-- The default location used with `List.getD` in statements about the
master list (never reached at in-range indices). -/
def dfltLoc : Location := { lat := 0, lon := 0 }

/-- Line 33: `all_grid_cells = [(x, y) for x in range(grid_size_x) for y in
range(grid_size_y)]`. -/
def grid_cells (gx gy : ℕ) : List (ℕ × ℕ) :=
  (List.range gx).flatMap (fun x => (List.range gy).map (fun y => (x, y)))

/-- Lines 50-54: the inner loop of the master-list generation, sampling
`n` locations uniformly inside one cell rectangle (lon drawn first, then
lat, each rounded to 7 decimals). -/
def cell_locations (cellMinLat cellMinLon cellW cellH : ℚ) (n : ℕ)
    (lonU latU : ℕ → ℚ) : List Location :=
  (List.range n).map (fun j =>
    { lat := round7 (uniformQ cellMinLat (cellMinLat + cellH) (latU j))
      lon := round7 (uniformQ cellMinLon (cellMinLon + cellW) (lonU j)) })

/-- Lines 44-54: the outer loop over the shuffled cells, carrying the
running `cell_index`; cell `(cx, cy)` at shuffled position `cellIndex`
receives `base + (1 if cellIndex < extra else 0)` locations. -/
def master_cells (base extra : ℕ) (minLat minLon cellW cellH : ℚ)
    (lonU latU : ℕ → ℕ → ℚ) : List (ℕ × ℕ) → ℕ → List Location
  | [], _ => []
  | (cx, cy) :: rest, cellIndex =>
    cell_locations (minLat + (cy : ℚ) * cellH) (minLon + (cx : ℚ) * cellW)
        cellW cellH (base + if cellIndex < extra then 1 else 0)
        (lonU cellIndex) (latU cellIndex)
      ++ master_cells base extra minLat minLon cellW cellH lonU latU rest (cellIndex + 1)

/-- Lines 37-54: the master location list.  `shuffled` is the oracle result
of `random.shuffle(all_grid_cells)`; `base = max(1, N // len(all_grid_cells))`
and `extra = N % len(all_grid_cells)` are computed from the unshuffled cell
list (line 39-40). -/
def master_locations (gx gy : ℕ) (minLat minLon cellW cellH : ℚ)
    (numLocations : ℕ) (shuffled : List (ℕ × ℕ)) (lonU latU : ℕ → ℕ → ℚ) :
    List Location :=
  let base := max 1 (numLocations / (grid_cells gx gy).length)
  let extra := numLocations % (grid_cells gx gy).length
  master_cells base extra minLat minLon cellW cellH lonU latU shuffled 0

/-- A per-day location record (line 82), lat/lon copied from the master
list, plus that day's grain set. -/
structure LocationRecord where
  lat : ℚ
  lon : ℚ
  grains : List Grain
deriving DecidableEq

/-- The default location record: `getD` with this default models the
in-range list indexing `previous_run["locations"][k]` of line 96 (the index
is always in range, so the default is never reached). -/
def dfltRec : LocationRecord := { lat := 0, lon := 0, grains := [] }

/-- The oracle draws consumed while building one run (one day). -/
structure DayDraws where
  hourN : ℕ
  minuteN : ℕ
  meanU : ℚ
  addU : ℚ
  removeU : ℚ
  loc : ℕ → LocDraws

/-- One run record (lines 65-70).  `date` is the day index `i` (the source
stores `start_date + timedelta(days=i)` formatted as a string, and
`operation_id` is a second formatting of the same date; both are injective
images of `i`).  `hour`/`minute` are the `randint(7, 18)` / `randint(0, 59)`
draws of line 68. -/
structure Run where
  date : ℕ
  hour : ℕ
  minute : ℕ
  locations : List LocationRecord
deriving DecidableEq

/-- The default run record: `getD` with this default models the in-range
list indexing `beach_data["runs"][i-1]` of line 96. -/
def dfltRun : Run := { date := 0, hour := 0, minute := 0, locations := [] }

/-- Lines 81-124: the loop over `enumerate(master_locations)` for day `i`,
carrying the running `location_index` `k`.  Day `0` samples
`randint(grainLo, grainHi)` fresh grains; a later day evolves
`prevLocs[k].grains`, the previous run's grain set at the same index. -/
def run_locations (i : ℕ) (p : DailyParams) (grainLo grainHi : ℕ)
    (d : DayDraws) (prevLocs : List LocationRecord) :
    List Location → ℕ → List LocationRecord
  | [], _ => []
  | loc :: rest, k =>
    { lat := loc.lat
      lon := loc.lon
      grains :=
        if i = 0 then
          sample_grains (randint grainLo grainHi (d.loc k).numGrainsN)
            (d.loc k).initDiamU (d.loc k).initAreaU
        else
          evolve_grains p ((prevLocs.getD k dfltRec).grains) (d.loc k) }
      :: run_locations i p grainLo grainHi d prevLocs rest (k + 1)

/-- Lines 63-126: assemble run `i` from the master list, the day's draws
and the previous run's location records. -/
def mk_run (i : ℕ) (master : List Location) (grainLo grainHi : ℕ)
    (d : DayDraws) (prevLocs : List LocationRecord) : Run :=
  { date := i
    hour := randint 7 18 d.hourN
    minute := randint 0 59 d.minuteN
    locations :=
      run_locations i (daily_params global_tendency d.meanU d.addU d.removeU)
        grainLo grainHi d prevLocs master 0 }

/-- The `for i in range(num_runs)` loop (lines 63-126), accumulating runs;
run `i > 0` reads `beach_data["runs"][i-1]` (line 96). -/
def build_runs (master : List Location) (grainLo grainHi : ℕ)
    (dd : ℕ → DayDraws) : ℕ → List Run
  | 0 => []
  | n + 1 =>
    let prev := build_runs master grainLo grainHi dd n
    prev ++ [mk_run n master grainLo grainHi (dd n)
      ((prev.getD (n - 1) dfltRun).locations)]

/-- The returned document `{"_id": ..., "name": ..., "runs": [...]}`. -/
structure BeachData where
  beach_id : String
  name : String
  runs : List Run
deriving DecidableEq

/-- All oracle draws consumed by one invocation of the generator. -/
structure GenDraws where
  numLocationsN : ℕ
  shuffled : List (ℕ × ℕ)
  lonU : ℕ → ℕ → ℚ
  latU : ℕ → ℕ → ℚ
  day : ℕ → DayDraws

/-- Line 26: the fixed grid resolution. -/
def grid_size_x : ℕ := 20

/-- Line 26: the fixed grid resolution. -/
def grid_size_y : ℕ := 16

/-- Lines 6-128: the whole generator.  `locLo, locHi` is the
`locations_per_run` range, `grainLo, grainHi` the `grains_per_location`
range. -/
def generate_realistic_beach_data (num_runs : ℕ) (locLo locHi grainLo grainHi : ℕ)
    (center_lat center_lon delta_max : ℚ) (beach_id beach_name : String)
    (d : GenDraws) : BeachData :=
  let min_lat := center_lat - delta_max
  let max_lat := center_lat + delta_max
  let min_lon := center_lon - delta_max
  let max_lon := center_lon + delta_max
  let cell_width := (max_lon - min_lon) / (grid_size_x : ℚ)
  let cell_height := (max_lat - min_lat) / (grid_size_y : ℚ)
  let num_locations := randint locLo locHi d.numLocationsN
  let master := master_locations grid_size_x grid_size_y min_lat min_lon
    cell_width cell_height num_locations d.shuffled d.lonU d.latU
  { beach_id := beach_id
    name := beach_name
    runs := build_runs master grainLo grainHi d.day num_runs }

/-! ## Specification-side definitions and concrete instances -/

/-- The grain invariant maintained by the generator: both measurements are
at least `10⁻⁵` (in particular strictly positive). -/
def grain_pos (g : Grain) : Prop := 1/100000 ≤ g.diameter ∧ 1/100000 ≤ g.area

/-- All unit oracles of a location's draws lie in `[0, 1]`. -/
def LocDrawsOK (d : LocDraws) : Prop :=
  (∀ j, UnitRange (d.initDiamU j)) ∧ (∀ j, UnitRange (d.initAreaU j)) ∧
  (∀ j, UnitRange (d.survU j)) ∧ (∀ j, UnitRange (d.changeU j)) ∧
  UnitRange d.addGateU ∧ (∀ j, UnitRange (d.newDiamU j)) ∧
  (∀ j, UnitRange (d.newAreaU j))

/-- All unit oracles of a day's draws lie in `[0, 1]`. -/
def DayDrawsOK (d : DayDraws) : Prop :=
  UnitRange d.meanU ∧ UnitRange d.addU ∧ UnitRange d.removeU ∧
  ∀ k, LocDrawsOK (d.loc k)

/-- The spec's wording of the resize pass (§4.3 step 1-2): keep exactly the
previous grains whose survival draw exceeds `max(0, remove_chance)`, and map
each survivor, in order, through a resize by one shared change factor; the
removed grains are not resized. -/
def spec_resize_pass (p : DailyParams) (survU changeU : ℕ → ℚ)
    (prev : List Grain) : List Grain :=
  (prev.enum.filter (fun kg => max 0 p.remove_chance < survU kg.1)).map
    (fun kg => resize_grain p kg.2 (changeU kg.1))

/-- The spec's wording of the daily parameter sampler (§4.2): independent
additive perturbations of `mean`, `add_chance` and `remove_chance`, with
`dev` unchanged and no clamping applied to the results. -/
def spec_daily_params (g : DailyParams) (um ua ur : ℚ) : DailyParams :=
  { mean := g.mean + uniformQ (-(2/100)) (2/100) um
    dev := g.dev
    add_chance := g.add_chance + uniformQ (-(3/100)) (3/100) ua
    remove_chance := g.remove_chance + uniformQ (-(3/100)) (3/100) ur }

/-- An all-zero draw record for one location, used to instantiate theorems
at concrete inputs. -/
def locDraws0 : LocDraws :=
  { numGrainsN := 0, initDiamU := fun _ => 0, initAreaU := fun _ => 0
    survU := fun _ => 0, changeU := fun _ => 0, addGateU := 0
    numNewN := 0, newDiamU := fun _ => 0, newAreaU := fun _ => 0 }

/-- An all-zero draw record for one day. -/
def dayDraws0 : DayDraws :=
  { hourN := 0, minuteN := 0, meanU := 0, addU := 0, removeU := 0
    loc := fun _ => locDraws0 }

/-! ## Helper lemmas -/

theorem grid_cells_length (gx gy : ℕ) : (grid_cells gx gy).length = gx * gy := by
  unfold grid_cells
  induction gx with
  | zero => simp
  | succ n ih =>
    rw [List.range_succ, List.flatMap_append, List.length_append, ih]
    simp [Nat.succ_mul]

theorem cell_locations_length (a b w h : ℚ) (n : ℕ) (lonU latU : ℕ → ℚ) :
    (cell_locations a b w h n lonU latU).length = n := by
  simp [cell_locations]

theorem master_cells_length (base extra : ℕ) (mla mlo w h : ℚ)
    (lonU latU : ℕ → ℕ → ℚ) (cells : List (ℕ × ℕ)) :
    ∀ k, (master_cells base extra mla mlo w h lonU latU cells k).length
      = cells.length * base + (min extra (k + cells.length) - min extra k) := by
  induction cells with
  | nil => intro k; simp [master_cells]
  | cons c rest ih =>
    intro k
    obtain ⟨cx, cy⟩ := c
    simp only [master_cells, List.length_append, cell_locations_length, ih (k + 1),
      List.length_cons, Nat.succ_mul]
    split <;> omega

theorem master_locations_length (gx gy : ℕ) (mla mlo w h : ℚ) (N : ℕ)
    (shuffled : List (ℕ × ℕ)) (lonU latU : ℕ → ℕ → ℚ) :
    (master_locations gx gy mla mlo w h N shuffled lonU latU).length
      = shuffled.length * max 1 (N / (gx * gy))
        + min (N % (gx * gy)) shuffled.length := by
  simp only [master_locations, grid_cells_length]
  rw [master_cells_length]
  omega

/-- Rounding to 5 decimals keeps a value that is at least `0.93 * 10⁻⁵`
at or above the smallest positive grid point `10⁻⁵`. -/
theorem round5_lower (x : ℚ) (hx : 93/10000000 ≤ x) : 1/100000 ≤ |round5 x| := by
  have h1 : (1 : ℤ) ≤ round (x * 100000) := by
    rw [round_eq]
    refine Int.le_floor.mpr ?_
    push_cast
    linarith
  have h2 : (1 : ℚ) ≤ ((round (x * 100000) : ℤ) : ℚ) := by exact_mod_cast h1
  unfold round5
  rw [abs_of_nonneg (by linarith)]
  linarith

theorem new_grain_pos (du au : ℚ) (hdu : UnitRange du) (hau : UnitRange au) :
    grain_pos (new_grain du au) := by
  obtain ⟨hdu0, hdu1⟩ := hdu
  obtain ⟨hau0, hau1⟩ := hau
  constructor
  · apply round5_lower
    unfold uniformQ
    nlinarith
  · apply round5_lower
    unfold uniformQ
    nlinarith

theorem sample_grains_pos (n : ℕ) (du au : ℕ → ℚ)
    (hdu : ∀ j, UnitRange (du j)) (hau : ∀ j, UnitRange (au j)) :
    ∀ g ∈ sample_grains n du au, grain_pos g := by
  intro g hg
  simp only [sample_grains, List.mem_map, List.mem_range] at hg
  obtain ⟨j, _, rfl⟩ := hg
  exact new_grain_pos _ _ (hdu j) (hau j)

theorem resize_grain_pos (p : DailyParams) (hm1 : 49/50 ≤ p.mean)
    (hdev : p.dev = 1/20) (g : Grain) (hg : grain_pos g) (cu : ℚ)
    (hcu : UnitRange cu) : grain_pos (resize_grain p g cu) := by
  obtain ⟨hgd, hga⟩ := hg
  obtain ⟨hcu0, hcu1⟩ := hcu
  have hcf : 93/100 ≤ uniformQ (p.mean - p.dev) (p.mean + p.dev) cu := by
    unfold uniformQ
    rw [hdev]
    ring_nf
    linarith
  constructor
  · apply round5_lower
    nlinarith
  · apply round5_lower
    nlinarith

theorem surviving_grains_pos (p : DailyParams) (hm1 : 49/50 ≤ p.mean)
    (hdev : p.dev = 1/20) (survU changeU : ℕ → ℚ)
    (hch : ∀ k, UnitRange (changeU k)) (prev : List Grain)
    (hprev : ∀ g ∈ prev, grain_pos g) :
    ∀ k, ∀ g ∈ surviving_grains p survU changeU prev k, grain_pos g := by
  induction prev with
  | nil => intro k g hg; simp [surviving_grains] at hg
  | cons a rest ih =>
    intro k g hg
    have hrest : ∀ g ∈ rest, grain_pos g := fun x hx => hprev x (List.mem_cons_of_mem a hx)
    simp only [surviving_grains] at hg
    by_cases hs : max 0 p.remove_chance < survU k
    · rw [if_pos hs] at hg
      rcases List.mem_cons.mp hg with h | h
      · subst h
        exact resize_grain_pos p hm1 hdev a (hprev a (List.mem_cons_self a rest)) _ (hch k)
      · exact ih hrest (k + 1) g h
    · rw [if_neg hs] at hg
      exact ih hrest (k + 1) g hg

theorem evolve_grains_pos (p : DailyParams) (hm1 : 49/50 ≤ p.mean)
    (hdev : p.dev = 1/20) (prev : List Grain) (d : LocDraws)
    (hprev : ∀ g ∈ prev, grain_pos g)
    (hch : ∀ k, UnitRange (d.changeU k))
    (hnd : ∀ j, UnitRange (d.newDiamU j)) (hna : ∀ j, UnitRange (d.newAreaU j)) :
    ∀ g ∈ evolve_grains p prev d, grain_pos g := by
  intro g hg
  unfold evolve_grains at hg
  split at hg
  · rcases List.mem_append.mp hg with h | h
    · exact surviving_grains_pos p hm1 hdev _ _ hch prev hprev 0 g h
    · exact sample_grains_pos _ _ _ hnd hna g h
  · exact surviving_grains_pos p hm1 hdev _ _ hch prev hprev 0 g hg

theorem daily_params_mean_bounds (um ua ur : ℚ) (h : UnitRange um) :
    49/50 ≤ (daily_params global_tendency um ua ur).mean ∧
      (daily_params global_tendency um ua ur).mean ≤ 51/50 := by
  obtain ⟨h0, h1⟩ := h
  simp only [daily_params, global_tendency, uniformQ]
  constructor <;> nlinarith

theorem daily_params_dev (g : DailyParams) (um ua ur : ℚ) :
    (daily_params g um ua ur).dev = g.dev := rfl

theorem getD_record_grains_pos (prevLocs : List LocationRecord) (k : ℕ)
    (hprev : ∀ lr ∈ prevLocs, ∀ g ∈ lr.grains, grain_pos g) :
    ∀ g ∈ (prevLocs.getD k dfltRec).grains, grain_pos g := by
  by_cases hk : k < prevLocs.length
  · rw [List.getD_eq_getElem _ _ hk]
    exact hprev _ (List.getElem_mem hk)
  · rw [List.getD_eq_default _ _ (le_of_not_lt hk)]
    intro g hg
    simp [dfltRec] at hg

theorem run_locations_pos (i : ℕ) (p : DailyParams) (grainLo grainHi : ℕ)
    (d : DayDraws) (prevLocs : List LocationRecord)
    (hm1 : 49/50 ≤ p.mean) (hdev : p.dev = 1/20)
    (hd : ∀ k, LocDrawsOK (d.loc k))
    (hprev : ∀ lr ∈ prevLocs, ∀ g ∈ lr.grains, grain_pos g) :
    ∀ locs k, ∀ lr ∈ run_locations i p grainLo grainHi d prevLocs locs k,
      ∀ g ∈ lr.grains, grain_pos g := by
  intro locs
  induction locs with
  | nil => intro k lr hlr; simp [run_locations] at hlr
  | cons a rest ih =>
    intro k lr hlr
    simp only [run_locations] at hlr
    rcases List.mem_cons.mp hlr with h | h
    · subst h
      obtain ⟨hd1, hd2, hd3, hd4, hd5, hd6, hd7⟩ := hd k
      intro g hg
      simp only at hg
      split at hg
      · exact sample_grains_pos _ _ _ hd1 hd2 g hg
      · exact evolve_grains_pos p hm1 hdev _ _
          (getD_record_grains_pos prevLocs k hprev) hd4 hd6 hd7 g hg
    · exact ih (k + 1) lr h

theorem build_runs_pos (master : List Location) (grainLo grainHi : ℕ)
    (dd : ℕ → DayDraws) (hdd : ∀ i, DayDrawsOK (dd i)) :
    ∀ n, ∀ run ∈ build_runs master grainLo grainHi dd n,
      ∀ lr ∈ run.locations, ∀ g ∈ lr.grains, grain_pos g := by
  intro n
  induction n with
  | zero => intro run hrun; simp [build_runs] at hrun
  | succ m ih =>
    intro run hrun
    simp only [build_runs] at hrun
    rcases List.mem_append.mp hrun with h | h
    · exact ih run h
    · rcases List.mem_singleton.mp h with rfl
      intro lr hlr
      obtain ⟨hm, ha, hr, hl⟩ := hdd m
      refine run_locations_pos m _ grainLo grainHi (dd m) _
        (daily_params_mean_bounds _ _ _ hm).1 (daily_params_dev _ _ _ _) hl ?_
        master 0 lr hlr
      intro lr2 hlr2
      by_cases hk : m - 1 < (build_runs master grainLo grainHi dd m).length
      · rw [List.getD_eq_getElem _ _ hk] at hlr2
        exact ih _ (List.getElem_mem hk) lr2 hlr2
      · rw [List.getD_eq_default _ _ (le_of_not_lt hk)] at hlr2
        simp [dfltRun] at hlr2

/-! ## C1: total number of master locations -/

/-- C1 (counterexample): with the source's grid dimensions 20 × 16 and a
target count of `N = 5` locations, the master list has
`320 * max(1, 5 // 320) + 5 % 320 = 325` entries, not 5: the
`max(1, ...)` on line 39 of `genjson.py` breaks exactness whenever
`N < Gx * Gy`. -/
theorem grid_sampler_total_cex :
    (master_locations 20 16 0 0 1 1 5 (grid_cells 20 16)
      (fun _ _ => 0) (fun _ _ => 0)).length ≠ 5 := by
  rw [master_locations_length, grid_cells_length]
  norm_num

/-- C1 (amended): for every target location count `N` and grid dimensions
`(Gx, Gy)` with `1 ≤ Gx * Gy ≤ N`, the number of locations in the master
list produced by the grid sampler equals `N` exactly (the per-cell counts
are `base + 1` for the first `extra` shuffled cells and `base` for the
rest, with `base = max(1, N // (Gx*Gy)) = N // (Gx*Gy)` and
`extra = N % (Gx*Gy)`). -/
theorem grid_sampler_total_eq (gx gy N : ℕ) (mla mlo w h : ℚ)
    (shuffled : List (ℕ × ℕ)) (lonU latU : ℕ → ℕ → ℚ)
    (hperm : List.Perm shuffled (grid_cells gx gy))
    (h1 : 1 ≤ gx * gy) (hN : gx * gy ≤ N) :
    (master_locations gx gy mla mlo w h N shuffled lonU latU).length = N := by
  have hlen : shuffled.length = gx * gy := by
    rw [hperm.length_eq, grid_cells_length]
  rw [master_locations_length, hlen]
  have hdiv : 1 ≤ N / (gx * gy) := (Nat.one_le_div_iff h1).mpr hN
  have hmod : N % (gx * gy) < gx * gy := Nat.mod_lt _ h1
  rw [max_eq_right hdiv]
  have hdm := Nat.div_add_mod N (gx * gy)
  omega

/-- C1 (witness): the amended theorem applied at a 1 × 1 grid and `N = 1`. -/
theorem grid_sampler_total_eq_witness :
    (master_locations 1 1 0 0 1 1 1 (grid_cells 1 1)
      (fun _ _ => 0) (fun _ _ => 0)).length = 1 :=
  grid_sampler_total_eq 1 1 1 0 0 1 1 (grid_cells 1 1) (fun _ _ => 0) (fun _ _ => 0)
    (List.Perm.refl _) (by norm_num) (by norm_num)

/-! ## C2: strict positivity of every grain in every run -/

/-- C2: for every run in the generated dataset, every grain in every
location record has strictly positive diameter and area, for all random
draws and any number of runs.  (The key fact is that rounded values are at
least `10⁻⁵` when positive and that the change factor always lies in
`[0.93, 1.07]`, so repeated shrinking can never round a measurement down
to `0`.) -/
theorem grains_strictly_positive (master : List Location)
    (grainLo grainHi : ℕ) (dd : ℕ → DayDraws) (n : ℕ)
    (hdd : ∀ i, DayDrawsOK (dd i)) :
    ∀ run ∈ build_runs master grainLo grainHi dd n,
      ∀ lr ∈ run.locations, ∀ g ∈ lr.grains,
        0 < g.diameter ∧ 0 < g.area := by
  intro run hrun lr hlr g hg
  obtain ⟨h1, h2⟩ := build_runs_pos master grainLo grainHi dd hdd n run hrun lr hlr g hg
  constructor <;> linarith

theorem dayDraws0_ok : DayDrawsOK dayDraws0 := by
  unfold DayDrawsOK LocDrawsOK UnitRange dayDraws0 locDraws0
  norm_num

/-- C2 (witness): the theorem applied to a concrete one-run dataset over a
single location with all-zero draws; its unique grain is `new_grain 0 0`. -/
theorem grains_strictly_positive_witness :
    0 < (new_grain 0 0).diameter ∧ 0 < (new_grain 0 0).area :=
  grains_strictly_positive [⟨0, 0⟩] 1 1 (fun _ => dayDraws0) 1
    (fun _ => dayDraws0_ok)
    (mk_run 0 [⟨0, 0⟩] 1 1 dayDraws0 []) (List.Mem.head _)
    ⟨0, 0, [new_grain 0 0]⟩ (List.Mem.head _)
    (new_grain 0 0) (List.Mem.head _)

/-! ## C3: an effective removal chance of at least 1 empties the location -/

/-- C3: in an evolve transition, if the day's raw `remove_chance` is at
least 1 and the accretion gate does not fire, the evolved grain set is
empty, for every previous grain set and all survival draws (a survival
draw never exceeds 1, so no grain can satisfy
`draw > max(0, remove_chance)`). -/
theorem evolve_empty_when_remove_ge_one (p : DailyParams) (prev : List Grain)
    (d : LocDraws) (hrc : 1 ≤ p.remove_chance)
    (hs : ∀ k, UnitRange (d.survU k))
    (hgate : ¬ d.addGateU < max 0 p.add_chance) :
    evolve_grains p prev d = [] := by
  have hsurv : ∀ prev2 k, surviving_grains p d.survU d.changeU prev2 k = [] := by
    intro prev2
    induction prev2 with
    | nil => intro k; rfl
    | cons a rest ih =>
      intro k
      have hno : ¬ max 0 p.remove_chance < d.survU k :=
        not_lt.mpr (le_trans (hs k).2 (le_max_of_le_right hrc))
      simp [surviving_grains, hno, ih]
  unfold evolve_grains
  rw [hsurv prev 0, if_neg hgate]

/-- C3 (witness): raw removal chance `1.5`, one previous grain, all survival
draws zero, gate draw `1` (the gate cannot fire against `add_chance = 1/20`). -/
theorem evolve_empty_when_remove_ge_one_witness :
    evolve_grains ⟨1, 1/20, 1/20, 3/2⟩ [⟨1, 1⟩]
      { locDraws0 with addGateU := 1 } = [] :=
  evolve_empty_when_remove_ge_one _ _ _ (by norm_num)
    (fun _ => ⟨le_refl 0, show (0 : ℚ) ≤ 1 by norm_num⟩)
    (show ¬ (1 : ℚ) < max 0 (1/20) by norm_num [lt_max_iff])

/-! ## C4: grain count across a transition with removal chance 0 -/

/-- C4 (counterexample): with `remove_chance = 0` and a failing accretion
gate, the grain count is not preserved for all draws: `random.random()` can
return `0.0`, and the survival test `0 > max(0, 0)` fails, so the grain is
removed.  Here the one previous grain is lost and the evolved set is empty. -/
theorem evolve_count_cex :
    (evolve_grains ⟨1, 1/20, 1/20, 0⟩ [⟨1, 1⟩]
      { locDraws0 with addGateU := 1 }).length ≠ 1 := by
  simp [evolve_grains, surviving_grains, locDraws0, lt_max_iff]
  norm_num

/-- C4 (amended): in an evolve transition with the day's `remove_chance`
equal to 0 and a failing accretion gate, the evolved grain set has exactly
as many grains as the previous set, provided every survival draw is
strictly positive (draw `0.0`, a possible value of `random.random()`,
removes its grain since survival requires `draw > 0`). -/
theorem evolve_count_preserved (p : DailyParams) (prev : List Grain)
    (d : LocDraws) (hrc : p.remove_chance = 0)
    (hs : ∀ k, 0 < d.survU k)
    (hgate : ¬ d.addGateU < max 0 p.add_chance) :
    (evolve_grains p prev d).length = prev.length := by
  have hsurv : ∀ prev2 k,
      (surviving_grains p d.survU d.changeU prev2 k).length = prev2.length := by
    intro prev2
    induction prev2 with
    | nil => intro k; rfl
    | cons a rest ih =>
      intro k
      have hc : max 0 p.remove_chance < d.survU k := by
        rw [hrc, max_self]
        exact hs k
      simp [surviving_grains, hc, ih]
  unfold evolve_grains
  rw [if_neg hgate, hsurv]

/-- C4 (witness): the amended theorem at one previous grain with survival
draw `1/2`. -/
theorem evolve_count_preserved_witness :
    (evolve_grains ⟨1, 1/20, 1/20, 0⟩ [⟨1, 1⟩]
      { locDraws0 with survU := fun _ => 1/2, addGateU := 1 }).length = 1 :=
  evolve_count_preserved _ _ _ rfl
    (fun _ => show (0 : ℚ) < 1/2 by norm_num)
    (show ¬ (1 : ℚ) < max 0 (1/20) by norm_num [lt_max_iff])

/-! ## C5: the resize pass, as a filter-then-map refinement -/

/-- C5: the survival/resize loop equals the spec's description: filter the
previous grains by their survival draw, then map each survivor through a
resize in which one change factor, drawn once per surviving grain, scales
both diameter and area, each rounded to 5 decimals and made non-negative by
`abs`; removed grains are not resized. -/
theorem resize_pass_matches_spec (p : DailyParams) (survU changeU : ℕ → ℚ)
    (prev : List Grain) :
    surviving_grains p survU changeU prev 0 = spec_resize_pass p survU changeU prev := by
  suffices h : ∀ k, surviving_grains p survU changeU prev k =
      ((prev.enumFrom k).filter (fun kg => max 0 p.remove_chance < survU kg.1)).map
        (fun kg => resize_grain p kg.2 (changeU kg.1)) from h 0
  induction prev with
  | nil => intro k; rfl
  | cons a rest ih =>
    intro k
    simp only [surviving_grains, List.enumFrom, List.filter_cons, decide_eq_true_eq]
    by_cases hc : max 0 p.remove_chance < survU k
    · rw [if_pos hc, if_pos hc, List.map_cons, ih (k + 1)]
    · rw [if_neg hc, if_neg hc, ih (k + 1)]

/-! ## C6: daily parameter sampling -/

/-- C6: every day's parameters arise from the fixed base tendency
`{mean = 1, dev = 0.05, add_chance = 0.05, remove_chance = 0.05}` by the
independent additive perturbations of the spec, with `dev` unchanged and no
clamping applied at creation time: in particular the mean may exceed 1
(e.g. at the maximal draw). -/
theorem daily_params_matches_spec :
    (∀ g um ua ur, daily_params g um ua ur = spec_daily_params g um ua ur) ∧
    global_tendency = ⟨1, 1/20, 1/20, 1/20⟩ ∧
    (∃ um : ℚ, UnitRange um ∧ 1 < (daily_params global_tendency um 0 0).mean) := by
  refine ⟨fun g um ua ur => rfl, rfl, 1, ⟨by norm_num, le_refl 1⟩, ?_⟩
  simp only [daily_params, global_tendency, uniformQ]
  norm_num

/-! ## Index lemmas for the run list -/

theorem run_locations_length (i : ℕ) (p : DailyParams) (grainLo grainHi : ℕ)
    (d : DayDraws) (prevLocs : List LocationRecord) :
    ∀ locs k, (run_locations i p grainLo grainHi d prevLocs locs k).length
      = locs.length := by
  intro locs
  induction locs with
  | nil => intro k; rfl
  | cons a rest ih => intro k; simp [run_locations, ih (k + 1)]

theorem build_runs_length (master : List Location) (grainLo grainHi : ℕ)
    (dd : ℕ → DayDraws) : ∀ n, (build_runs master grainLo grainHi dd n).length = n := by
  intro n
  induction n with
  | zero => rfl
  | succ m ih => simp [build_runs, ih]

theorem run_locations_getD_coords (i : ℕ) (p : DailyParams)
    (grainLo grainHi : ℕ) (d : DayDraws) (prevLocs : List LocationRecord) :
    ∀ locs k j, j < locs.length →
      ((run_locations i p grainLo grainHi d prevLocs locs k).getD j dfltRec).lat
          = (locs.getD j dfltLoc).lat ∧
        ((run_locations i p grainLo grainHi d prevLocs locs k).getD j dfltRec).lon
          = (locs.getD j dfltLoc).lon := by
  intro locs
  induction locs with
  | nil => intro k j hj; simp at hj
  | cons a rest ih =>
    intro k j hj
    cases j with
    | zero => exact ⟨rfl, rfl⟩
    | succ j2 =>
      simp only [run_locations, List.getD_cons_succ]
      exact ih (k + 1) j2 (by simpa using hj)

theorem run_locations_getD_grains (i : ℕ) (p : DailyParams)
    (grainLo grainHi : ℕ) (d : DayDraws) (prevLocs : List LocationRecord)
    (hi : i ≠ 0) :
    ∀ locs k j, j < locs.length →
      ((run_locations i p grainLo grainHi d prevLocs locs k).getD j dfltRec).grains
        = evolve_grains p ((prevLocs.getD (k + j) dfltRec).grains) (d.loc (k + j)) := by
  intro locs
  induction locs with
  | nil => intro k j hj; simp at hj
  | cons a rest ih =>
    intro k j hj
    cases j with
    | zero =>
      simp only [run_locations, List.getD_cons_zero, Nat.add_zero]
      rw [if_neg hi]
    | succ j2 =>
      simp only [run_locations, List.getD_cons_succ]
      rw [ih (k + 1) j2 (by simpa using hj)]
      have : k + 1 + j2 = k + (j2 + 1) := by omega
      rw [this]

theorem build_runs_getD (master : List Location) (grainLo grainHi : ℕ)
    (dd : ℕ → DayDraws) : ∀ n i, i < n →
      (build_runs master grainLo grainHi dd n).getD i dfltRun
        = mk_run i master grainLo grainHi (dd i)
            (((build_runs master grainLo grainHi dd i).getD (i - 1) dfltRun).locations) := by
  intro n
  induction n with
  | zero => intro i hi; omega
  | succ m ih =>
    intro i hi
    simp only [build_runs]
    by_cases him : i < m
    · rw [List.getD_append _ _ _ _ (by rw [build_runs_length]; exact him)]
      exact ih i him
    · have : i = m := by omega
      subst this
      rw [List.getD_append_right _ _ _ _ (by rw [build_runs_length])]
      rw [build_runs_length]
      simp

/-! ## C7: coordinates are fixed across runs -/

theorem run_coords_from_master (master : List Location) (grainLo grainHi : ℕ)
    (dd : ℕ → DayDraws) (n i k : ℕ) (hi : i < n) (hk : k < master.length) :
    (((build_runs master grainLo grainHi dd n).getD i dfltRun).locations.getD k dfltRec).lat
        = (master.getD k dfltLoc).lat ∧
      (((build_runs master grainLo grainHi dd n).getD i dfltRun).locations.getD k dfltRec).lon
        = (master.getD k dfltLoc).lon := by
  rw [build_runs_getD master grainLo grainHi dd n i hi]
  exact run_locations_getD_coords i _ grainLo grainHi (dd i) _ master 0 k hk

/-- C7: for every pair of run indices `i` and location indices `k` in
range, run `i`'s `k`-th location record has the same `lat` and `lon` as run
`0`'s `k`-th record: coordinates are fixed by the master list and never
change across days. -/
theorem coords_fixed_across_runs (master : List Location) (grainLo grainHi : ℕ)
    (dd : ℕ → DayDraws) (n i k : ℕ) (hi : i < n) (hk : k < master.length) :
    (((build_runs master grainLo grainHi dd n).getD i dfltRun).locations.getD k dfltRec).lat
        = (((build_runs master grainLo grainHi dd n).getD 0 dfltRun).locations.getD k dfltRec).lat ∧
      (((build_runs master grainLo grainHi dd n).getD i dfltRun).locations.getD k dfltRec).lon
        = (((build_runs master grainLo grainHi dd n).getD 0 dfltRun).locations.getD k dfltRec).lon := by
  have h0 : 0 < n := lt_of_le_of_lt (Nat.zero_le i) hi
  have hi2 := run_coords_from_master master grainLo grainHi dd n i k hi hk
  have h02 := run_coords_from_master master grainLo grainHi dd n 0 k h0 hk
  exact ⟨hi2.1.trans h02.1.symm, hi2.2.trans h02.2.symm⟩

/-- C7 (witness): a two-run dataset over the single master location
`(lat, lon) = (1, 2)` with all-zero draws, comparing run 1 to run 0. -/
theorem coords_fixed_across_runs_witness :
    (((build_runs [⟨1, 2⟩] 1 1 (fun _ => dayDraws0) 2).getD 1 dfltRun).locations.getD 0 dfltRec).lat
        = (((build_runs [⟨1, 2⟩] 1 1 (fun _ => dayDraws0) 2).getD 0 dfltRun).locations.getD 0 dfltRec).lat ∧
      (((build_runs [⟨1, 2⟩] 1 1 (fun _ => dayDraws0) 2).getD 1 dfltRun).locations.getD 0 dfltRec).lon
        = (((build_runs [⟨1, 2⟩] 1 1 (fun _ => dayDraws0) 2).getD 0 dfltRun).locations.getD 0 dfltRec).lon :=
  coords_fixed_across_runs [⟨1, 2⟩] 1 1 (fun _ => dayDraws0) 2 1 0
    (by norm_num) (by norm_num)

/-! ## C8: every run has the master list's location count -/

/-- C8: the list of per-run location counts is constant, equal to the
master list's length, for every run of the dataset. -/
theorem run_location_counts (master : List Location) (grainLo grainHi : ℕ)
    (dd : ℕ → DayDraws) (n : ℕ) :
    (build_runs master grainLo grainHi dd n).map (fun r => r.locations.length)
      = List.replicate n master.length := by
  induction n with
  | zero => rfl
  | succ m ih =>
    rw [List.replicate_succ']
    simp only [build_runs, List.map_append, ih, List.map_cons, List.map_nil]
    congr 1
    simp [mk_run, run_locations_length]

/-! ## C9: evolution reads exactly the previous run at the same index -/

/-- C9: for every run index `i ≥ 1` and in-range location index `k`, the
grain set stored at `runs[i].locations[k]` equals the evolver applied to
exactly `runs[i-1].locations[k].grains`, the day-`i` parameters, and the
day-`i` draws for location `k` — it depends on no earlier run and no other
location. -/
theorem evolved_from_previous_run (master : List Location)
    (grainLo grainHi : ℕ) (dd : ℕ → DayDraws) (n i k : ℕ)
    (hi : i < n) (h1 : 1 ≤ i) (hk : k < master.length) :
    (((build_runs master grainLo grainHi dd n).getD i dfltRun).locations.getD k dfltRec).grains
      = evolve_grains (daily_params global_tendency (dd i).meanU (dd i).addU (dd i).removeU)
          ((((build_runs master grainLo grainHi dd n).getD (i - 1) dfltRun).locations.getD k dfltRec).grains)
          ((dd i).loc k) := by
  have hstab : (build_runs master grainLo grainHi dd n).getD (i - 1) dfltRun
      = (build_runs master grainLo grainHi dd i).getD (i - 1) dfltRun := by
    rw [build_runs_getD master grainLo grainHi dd n (i - 1) (by omega),
      build_runs_getD master grainLo grainHi dd i (i - 1) (by omega)]
  rw [build_runs_getD master grainLo grainHi dd n i hi, hstab]
  simp only [mk_run]
  rw [run_locations_getD_grains i _ grainLo grainHi (dd i) _ (by omega) master 0 k hk]
  simp

/-- C9 (witness): the theorem at a two-run dataset over one master
location, `i = 1`, `k = 0`, all-zero draws. -/
theorem evolved_from_previous_run_witness :
    (((build_runs [⟨0, 0⟩] 1 1 (fun _ => dayDraws0) 2).getD 1 dfltRun).locations.getD 0 dfltRec).grains
      = evolve_grains (daily_params global_tendency dayDraws0.meanU dayDraws0.addU dayDraws0.removeU)
          ((((build_runs [⟨0, 0⟩] 1 1 (fun _ => dayDraws0) 2).getD 0 dfltRun).locations.getD 0 dfltRec).grains)
          (dayDraws0.loc 0) :=
  evolved_from_previous_run [⟨0, 0⟩] 1 1 (fun _ => dayDraws0) 2 1 0
    (by norm_num) (by norm_num) (by norm_num)

/-! ## C10: zero runs requested -/

/-- C10: with `num_runs = 0` the generator still succeeds (it is total in
the embedding): it returns the dataset with the given id and name and an
empty run sequence, and the result does not depend on any daily-parameter
or per-location draw (only the master list is built, which does not appear
in the output). -/
theorem zero_runs_dataset (locLo locHi grainLo grainHi : ℕ)
    (clat clon dmax : ℚ) (bid bname : String) (d : GenDraws) :
    generate_realistic_beach_data 0 locLo locHi grainLo grainHi clat clon dmax
      bid bname d = { beach_id := bid, name := bname, runs := [] } := rfl
